import Mathlib

/-!
# Verification of the grpctools Consul resolver (`naming/consul`)

A shallow embedding of the resolver/watcher subsystem of
`github.com/ipfans/grpctools`: the instance-set differ `makeUpdates`, the
constructor `NewConsulResolver`, the consumer operations `Next` and `Close`,
and the background polling loop `backgroundUpdater`, together with proofs of
the specified properties.

Modelling conventions:
* Instance addresses are `String`s (the Go code uses `host:port` strings).
* A Go `map[string]struct{}` built from a slice is a set of strings; we
  represent the set of keys by `List.dedup` of the slice.  Go map iteration
  order is unspecified, so every property about the output of `makeUpdates`
  is stated at the level of membership / counts, never of a particular order;
  the embedding fixes one representative order.
* Go channels are modelled explicitly: a buffered channel is a FIFO queue
  (`List` of pending elements) plus a closed flag.  Receiving from a closed
  empty channel yields the zero value (`[]` for a slice) without blocking;
  receiving from an open empty channel blocks (modelled as `none`).
* Closing an already-closed channel panics in Go; channel close is therefore
  modelled as a fallible operation returning `Option`.
* The registry (Consul) is an external collaborator; a fetch is modelled as
  an oracle `Nat → Nat → Option (List String × Nat)` mapping an iteration
  number and the current wait index to either `some (instances, newIndex)`
  (success) or `none` (error).  On error `getInstances` returns its input
  index unchanged, which the model reflects by leaving the state unchanged.
-/

namespace Grpctools

/-- The operation of a `naming.Update`: `naming.Add` or `naming.Delete`. -/
inductive Op where
  | add
  | delete
deriving DecidableEq, Repr

/-- A `naming.Update`: an operation together with an instance address. -/
structure Update where
  op : Op
  addr : String
deriving DecidableEq, Repr

/-- A batch of updates, as returned by one diff (`[]*naming.Update`). -/
abbrev Batch := List Update

/-- Embedding of `makeUpdates(oldInstances, newInstances []string)`.

The Go code inserts each slice into a `map[string]struct{}` (deduplicating),
then emits `Add` for every key of the new map absent from the old map and
`Delete` for every key of the old map absent from the new map.  The key sets
are represented by `List.dedup`; the unspecified Go map iteration order is
fixed to the dedup order. -/
def makeUpdates (oldInstances newInstances : List String) : Batch :=
  let oldAddr := oldInstances.dedup
  let newAddr := newInstances.dedup
  (newAddr.filter (fun a => a ∉ oldAddr)).map (fun a => { op := Op.add, addr := a }) ++
    (oldAddr.filter (fun a => a ∉ newAddr)).map
      (fun a => { op := Op.delete, addr := a })

/-- Membership characterization of `makeUpdates`: an event is produced
exactly for the addresses whose presence changed. -/
theorem mem_makeUpdates (oldInstances newInstances : List String) (u : Update) :
    u ∈ makeUpdates oldInstances newInstances ↔
      (u.op = Op.add ∧ u.addr ∈ newInstances ∧ u.addr ∉ oldInstances) ∨
      (u.op = Op.delete ∧ u.addr ∈ oldInstances ∧ u.addr ∉ newInstances) := by
  cases u with
  | mk op addr =>
    cases op <;>
      simp [makeUpdates, List.mem_append, List.mem_map, List.mem_filter]

/-- The batch produced by `makeUpdates` has no duplicate events. -/
theorem makeUpdates_nodup (oldInstances newInstances : List String) :
    (makeUpdates oldInstances newInstances).Nodup := by
  unfold makeUpdates
  refine List.Nodup.append ?_ ?_ ?_
  · exact ((List.nodup_dedup _).filter _).map
      (fun a b h => congrArg Update.addr h)
  · exact ((List.nodup_dedup _).filter _).map
      (fun a b h => congrArg Update.addr h)
  · intro u hu hv
    rcases List.mem_map.mp hu with ⟨a, _, rfl⟩
    rcases List.mem_map.mp hv with ⟨b, _, hb⟩
    exact Op.noConfusion (congrArg Update.op hb)

/-- **C1.** For every pair of snapshots, `makeUpdates` returns exactly one
`Add` event for each address present in the new snapshot but absent from the
old one, exactly one `Delete` event for each address present in the old
snapshot but absent from the new one, and no other events; in particular
`makeUpdates A A` is empty. -/
theorem makeUpdates_diff_spec (oldInstances newInstances : List String) :
    (∀ a : String,
      (makeUpdates oldInstances newInstances).count { op := Op.add, addr := a } =
        if a ∈ newInstances ∧ a ∉ oldInstances then 1 else 0) ∧
    (∀ a : String,
      (makeUpdates oldInstances newInstances).count { op := Op.delete, addr := a } =
        if a ∈ oldInstances ∧ a ∉ newInstances then 1 else 0) ∧
    (∀ u ∈ makeUpdates oldInstances newInstances,
      (u.op = Op.add ∧ u.addr ∈ newInstances ∧ u.addr ∉ oldInstances) ∨
      (u.op = Op.delete ∧ u.addr ∈ oldInstances ∧ u.addr ∉ newInstances)) ∧
    makeUpdates oldInstances oldInstances = [] := by
  refine ⟨?_, ?_, ?_, ?_⟩
  · intro a
    rw [List.count_eq_of_nodup (makeUpdates_nodup _ _)]
    simp [mem_makeUpdates]
  · intro a
    rw [List.count_eq_of_nodup (makeUpdates_nodup _ _)]
    simp [mem_makeUpdates]
  · intro u hu
    exact (mem_makeUpdates _ _ u).mp hu
  · have h : ∀ u : Update, u ∉ makeUpdates oldInstances oldInstances := by
      intro u hu
      rcases (mem_makeUpdates _ _ u).mp hu with ⟨_, h₁, h₂⟩ | ⟨_, h₁, h₂⟩ <;>
        exact h₂ h₁
    exact List.eq_nil_iff_forall_not_mem.mpr h

/-- Helper: a duplicate-free list all of whose elements are equal has length
at most one. -/
theorem length_le_one_of_nodup_const {α : Type} {l : List α} {v : α}
    (hn : l.Nodup) (hv : ∀ x ∈ l, x = v) : l.length ≤ 1 := by
  match l with
  | [] => simp
  | [x] => simp
  | x :: y :: tl =>
    exfalso
    rw [List.nodup_cons] at hn
    exact hn.1 (by simp [hv x (by simp), hv y (by simp)])

/-- **C8.** `makeUpdates` treats its two input lists as sets: its result, as
a set of events, is invariant under duplicating or permuting addresses within
either input list, and it produces at most one event per address. -/
theorem makeUpdates_set_invariant (old₁ new₁ old₂ new₂ : List String)
    (ho : ∀ a : String, a ∈ old₁ ↔ a ∈ old₂)
    (hn : ∀ a : String, a ∈ new₁ ↔ a ∈ new₂) :
    (∀ u : Update, u ∈ makeUpdates old₁ new₁ ↔ u ∈ makeUpdates old₂ new₂) ∧
    (∀ a : String,
      ((makeUpdates old₁ new₁).filter (fun u => u.addr = a)).length ≤ 1) := by
  constructor
  · intro u
    simp only [mem_makeUpdates, ho, hn]
  · intro a
    have hnd : ((makeUpdates old₁ new₁).filter (fun u => u.addr = a)).Nodup :=
      (makeUpdates_nodup _ _).filter _
    by_cases hadd : a ∈ new₁ ∧ a ∉ old₁
    · refine length_le_one_of_nodup_const (v := { op := Op.add, addr := a }) hnd ?_
      intro u hu
      have hm := List.mem_filter.mp hu
      have ha : u.addr = a := by simpa using hm.2
      rcases (mem_makeUpdates _ _ u).mp hm.1 with ⟨hop, _, _⟩ | ⟨_, h₁, h₂⟩
      · cases u; cases hop; cases ha; rfl
      · rw [ha] at h₂; exact absurd hadd.1 h₂
    · refine length_le_one_of_nodup_const (v := { op := Op.delete, addr := a }) hnd ?_
      intro u hu
      have hm := List.mem_filter.mp hu
      have ha : u.addr = a := by simpa using hm.2
      rcases (mem_makeUpdates _ _ u).mp hm.1 with ⟨_, h₁, h₂⟩ | ⟨hop, _, _⟩
      · rw [ha] at h₁ h₂; exact absurd ⟨h₁, h₂⟩ hadd
      · cases u; cases hop; cases ha; rfl

/-- Witness for `makeUpdates_set_invariant` at concrete duplicated and
permuted inputs. -/
theorem makeUpdates_set_invariant_witness :
    (∀ u : Update,
      u ∈ makeUpdates ["x", "x", "y"] ["x", "z", "z"] ↔
        u ∈ makeUpdates ["y", "x"] ["z", "x"]) ∧
    (∀ a : String,
      ((makeUpdates ["x", "x", "y"] ["x", "z", "z"]).filter
        (fun u => u.addr = a)).length ≤ 1) := by
  have ho : ∀ a : String, a ∈ ["x", "x", "y"] ↔ a ∈ ["y", "x"] := by
    intro a; simp; tauto
  have hn : ∀ a : String, a ∈ ["x", "z", "z"] ↔ a ∈ ["z", "x"] := by
    intro a; simp; tauto
  exact makeUpdates_set_invariant _ _ _ _ ho hn

/-- A buffered Go channel: FIFO queue of pending elements plus a closed flag.
`chanUpdates` is created with capacity one. -/
structure Chan (α : Type) where
  buffer : List α
  closed : Bool
deriving Repr

/-- Closing a Go channel panics if the channel is already closed; the model
returns `none` for the panic. -/
def Chan.closeChan {α : Type} (c : Chan α) : Option (Chan α) :=
  if c.closed then none else some { c with closed := true }

/-- The `Resolver` state visible to the consumer: the quit channel (only its
closed flag matters, nothing is ever sent on it) and the updates channel. -/
structure Resolver where
  chanQuitClosed : Bool
  chanUpdates : Chan Batch
deriving Repr

/-- Result of `NewConsulResolver(client, service, opts...)`: the resolver, the
error return value, the arguments handed to the spawned `backgroundUpdater`
(initial instances and last index), and the message passed to
`logger.Infof`, if any. -/
structure InitResult where
  r : Resolver
  err : Option String
  pollerInstances : List String
  pollerIndex : Nat
  logged : Option String
deriving Repr

/-- Embedding of `NewConsulResolver`.  The construction-time call
`r.getInstances(0)` is abstracted by its outcome `fetch0`: on success
`instances, index`; on failure `getInstances` returns `(nil, 0, err)` (the
input index `0` unchanged) and the error is only logged.  The initial batch
`makeUpdates(nil, instances)` is sent on the capacity-one `chanUpdates`
exactly when it is non-empty, and the function always returns `r, nil`. -/
def NewConsulResolver (fetch0 : Except String (List String × Nat)) : InitResult :=
  let res := match fetch0 with
    | Except.ok (l, i) => (l, i, (none : Option String))
    | Except.error e => (([] : List String), 0, some e)
  let instances := res.1
  let index := res.2.1
  let ferr := res.2.2
  let updates := makeUpdates [] instances
  { r :=
      { chanQuitClosed := false
        chanUpdates :=
          { buffer := if updates.length > 0 then [updates] else []
            closed := false } }
    err := none
    pollerInstances := instances
    pollerIndex := index
    logged := ferr }

/-- Embedding of `Next`, i.e. `return <-r.chanUpdates, nil`.  Receiving from
the channel takes the oldest buffered element; on a closed empty channel it
returns the zero value `[]` immediately; on an open empty channel it blocks,
modelled as `none`.  The error component is the literal `nil` of the source. -/
def Next (r : Resolver) : Option (Batch × Option String × Resolver) :=
  match r.chanUpdates.buffer with
  | b :: rest =>
    some (b, none, { r with chanUpdates := { r.chanUpdates with buffer := rest } })
  | [] =>
    if r.chanUpdates.closed then some ([], none, r) else none

/-- Embedding of `Close`: a `select` that receives from `chanQuit` when it is
already closed (doing nothing), and otherwise, in the `default` branch,
closes `chanQuit` and then `chanUpdates`.  Each `close` panics (`none`) on an
already-closed channel. -/
def Close (r : Resolver) : Option Resolver :=
  if r.chanQuitClosed then some r
  else
    match Chan.closeChan { buffer := ([] : List Unit), closed := r.chanQuitClosed } with
    | none => none
    | some _ =>
      match r.chanUpdates.closeChan with
      | none => none
      | some c => some { chanQuitClosed := true, chanUpdates := c }

/-- **C4.** If the construction-time synchronous fetch succeeds with a
non-empty instance set, the first `Next` call returns (with a nil error) a
batch consisting, as a set, of exactly one `Add` event per initial instance
address and no `Delete` events. -/
theorem first_next_initial (l : List String) (idx : Nat) (hne : l ≠ []) :
    ∃ (b : Batch) (r' : Resolver),
      Next (NewConsulResolver (Except.ok (l, idx))).r = some (b, none, r') ∧
      (∀ a : String, ({ op := Op.add, addr := a } : Update) ∈ b ↔ a ∈ l) ∧
      (∀ a : String, ({ op := Op.delete, addr := a } : Update) ∉ b) ∧
      b.Nodup := by
  obtain ⟨a0, ha0⟩ := List.exists_mem_of_ne_nil l hne
  have hmem : ({ op := Op.add, addr := a0 } : Update) ∈ makeUpdates [] l :=
    (mem_makeUpdates _ _ _).mpr (Or.inl ⟨rfl, ha0, by simp⟩)
  have hlen : 0 < (makeUpdates [] l).length :=
    List.length_pos.mpr (List.ne_nil_of_mem hmem)
  refine ⟨makeUpdates [] l,
    { chanQuitClosed := false, chanUpdates := { buffer := [], closed := false } },
    ?_, ?_, ?_, makeUpdates_nodup _ _⟩
  · simp [NewConsulResolver, Next, hlen]
  · intro a
    rw [mem_makeUpdates]
    simp
  · intro a h
    rcases (mem_makeUpdates _ _ _).mp h with ⟨hop, _, _⟩ | ⟨_, h₁, _⟩
    · exact Op.noConfusion hop
    · exact (List.not_mem_nil a) h₁

/-- Witness for `first_next_initial` with two initial addresses. -/
theorem first_next_initial_witness :
    (["h:1", "h:2"] : List String) ≠ [] ∧
    (∃ (b : Batch) (r' : Resolver),
      Next (NewConsulResolver (Except.ok (["h:1", "h:2"], 7))).r = some (b, none, r') ∧
      (∀ a : String, ({ op := Op.add, addr := a } : Update) ∈ b ↔ a ∈ ["h:1", "h:2"]) ∧
      (∀ a : String, ({ op := Op.delete, addr := a } : Update) ∉ b) ∧
      b.Nodup) :=
  ⟨List.cons_ne_nil _ _, first_next_initial _ 7 (List.cons_ne_nil _ _)⟩

/-- **C5.** Whenever `Next` returns, its error component is `nil`: the body
is literally `return <-r.chanUpdates, nil`, so the error return is
unreachable. -/
theorem next_error_nil (r : Resolver) (b : Batch) (e : Option String)
    (r' : Resolver) (h : Next r = some (b, e, r')) : e = none := by
  unfold Next at h
  rcases hb : r.chanUpdates.buffer with _ | ⟨x, xs⟩ <;> rw [hb] at h
  · by_cases hc : r.chanUpdates.closed = true
    · rw [if_pos hc] at h
      cases h
      rfl
    · rw [if_neg hc] at h
      cases h
  · cases h
    rfl

/-- Witness for `next_error_nil` on a resolver with one buffered batch. -/
theorem next_error_nil_witness :
    Next { chanQuitClosed := false,
           chanUpdates :=
             { buffer := [[{ op := Op.add, addr := "a" }]], closed := false } } =
      some ([{ op := Op.add, addr := "a" }], none,
        { chanQuitClosed := false,
          chanUpdates := { buffer := [], closed := false } }) ∧
    (none : Option String) = none :=
  ⟨rfl, next_error_nil
    { chanQuitClosed := false,
      chanUpdates :=
        { buffer := [[{ op := Op.add, addr := "a" }]], closed := false } }
    [{ op := Op.add, addr := "a" }] none
    { chanQuitClosed := false, chanUpdates := { buffer := [], closed := false } }
    rfl⟩

/-- **C6.** When the construction-time fetch fails, `NewConsulResolver`
still returns a nil error (as it does for every input), no initial batch is
enqueued, the initial snapshot handed to the poller is empty, and the
failure is surfaced only through logging. -/
theorem construction_soft_fail :
    (∀ fetch0 : Except String (List String × Nat),
      (NewConsulResolver fetch0).err = none) ∧
    (∀ e : String,
      (NewConsulResolver (Except.error e)).r.chanUpdates.buffer = [] ∧
      (NewConsulResolver (Except.error e)).pollerInstances = [] ∧
      (NewConsulResolver (Except.error e)).logged = some e) := by
  constructor
  · intro fetch0
    rfl
  · intro e
    exact ⟨rfl, rfl, rfl⟩

/-- **C7.** `Close` is idempotent: in sequential use (where the quit channel
and the update channel are closed together, so `chanQuitClosed =
chanUpdates.closed`) the first call closes both channels, every subsequent
call is a no-op, and no call panics — the double close of a channel, which
would panic (`Chan.closeChan` returning `none`), is unreachable. -/
theorem close_idempotent (r : Resolver)
    (hinv : r.chanQuitClosed = r.chanUpdates.closed) :
    ∃ r' : Resolver, Close r = some r' ∧ Close r' = some r' ∧
      r'.chanQuitClosed = true ∧ r'.chanUpdates.closed = true ∧
      (r.chanQuitClosed = false →
        r' = { chanQuitClosed := true,
               chanUpdates := { r.chanUpdates with closed := true } }) := by
  by_cases hq : r.chanQuitClosed = true
  · refine ⟨r, by simp [Close, hq], by simp [Close, hq], hq,
      hinv.symm.trans hq, ?_⟩
    intro hq'
    rw [hq] at hq'
    cases hq'
  · have hq' : r.chanQuitClosed = false := by simpa using hq
    have hc : r.chanUpdates.closed = false := hinv.symm.trans hq'
    refine ⟨{ chanQuitClosed := true,
              chanUpdates := { r.chanUpdates with closed := true } },
      ?_, by simp [Close], rfl, rfl, fun _ => rfl⟩
    simp [Close, Chan.closeChan, hq', hc]

/-- Witness for `close_idempotent` on a freshly constructed resolver. -/
theorem close_idempotent_witness :
    ({ chanQuitClosed := false,
       chanUpdates := { buffer := [], closed := false } } : Resolver).chanQuitClosed =
      ({ chanQuitClosed := false,
         chanUpdates := { buffer := [], closed := false } } : Resolver).chanUpdates.closed ∧
    ∃ r' : Resolver,
      Close { chanQuitClosed := false,
              chanUpdates := { buffer := [], closed := false } } = some r' ∧
      Close r' = some r' ∧ r'.chanQuitClosed = true ∧
      r'.chanUpdates.closed = true ∧
      (({ chanQuitClosed := false,
          chanUpdates := { buffer := [], closed := false } } : Resolver).chanQuitClosed = false →
        r' = { chanQuitClosed := true,
               chanUpdates := { buffer := [], closed := true } }) :=
  ⟨rfl, close_idempotent
    { chanQuitClosed := false, chanUpdates := { buffer := [], closed := false } } rfl⟩

/-- **C10.** After `Close` has run and the update channel is drained, `Next`
returns immediately with the zero value `[]` and a nil error; since the
resolver state is returned unchanged, every subsequent call behaves the
same. -/
theorem next_after_close (r₀ r : Resolver)
    (hinv : r₀.chanQuitClosed = r₀.chanUpdates.closed)
    (hc : Close r₀ = some r) (hd : r.chanUpdates.buffer = []) :
    Next r = some ([], none, r) := by
  have hcl : r.chanUpdates.closed = true := by
    by_cases hq : r₀.chanQuitClosed = true
    · simp [Close, hq] at hc
      rw [← hc]
      exact hinv.symm.trans hq
    · have hq' : r₀.chanQuitClosed = false := by simpa using hq
      have hc0 : r₀.chanUpdates.closed = false := hinv.symm.trans hq'
      simp [Close, Chan.closeChan, hq', hc0] at hc
      rw [← hc]
  unfold Next
  rw [hd, hcl]
  simp

/-- Witness for `next_after_close`: close a fresh resolver, then call
`Next`. -/
theorem next_after_close_witness :
    ({ chanQuitClosed := false,
       chanUpdates := { buffer := [], closed := false } } : Resolver).chanQuitClosed =
      ({ chanQuitClosed := false,
         chanUpdates := { buffer := [], closed := false } } : Resolver).chanUpdates.closed ∧
    Close { chanQuitClosed := false,
            chanUpdates := { buffer := [], closed := false } } =
      some { chanQuitClosed := true,
             chanUpdates := { buffer := [], closed := true } } ∧
    ({ chanQuitClosed := true,
       chanUpdates := { buffer := [], closed := true } } : Resolver).chanUpdates.buffer = [] ∧
    Next { chanQuitClosed := true,
           chanUpdates := { buffer := [], closed := true } } =
      some ([], none,
        { chanQuitClosed := true, chanUpdates := { buffer := [], closed := true } }) :=
  ⟨rfl, rfl, rfl, next_after_close
    { chanQuitClosed := false, chanUpdates := { buffer := [], closed := false } }
    { chanQuitClosed := true, chanUpdates := { buffer := [], closed := true } }
    rfl rfl rfl⟩

/-- The state carried by `backgroundUpdater` across loop iterations: the
local variables `lastIndex` and `oldInstances`, a log `sent` of the batches
published on `chanUpdates`, the closed flag of `chanQuit`, and an iteration
counter used to address the fetch oracle. -/
structure UpdaterState where
  iter : Nat
  quitClosed : Bool
  lastIndex : Nat
  oldInstances : List String
  sent : List Batch
deriving DecidableEq, Repr

/-- One iteration of the `for` loop in `backgroundUpdater`, returning `none`
if the iteration exits the loop and `some` of the next state otherwise.

The loop body is a `select`.  When `chanQuit` is closed, the receive case
`case <-r.chanQuit:` is ready and is chosen; its body is `break`, which in Go
terminates the `select` statement only, not the `for` loop, so the iteration
falls through to the next one with the state unchanged (no branch of this
function ever returns `none`: the source contains no statement that leaves
the loop).  Otherwise the `default` branch runs one fetch
(`r.getInstances(lastIndex)`, abstracted by the oracle `fetch`, which on
error returns the index unchanged): on error it logs and `continue`s, leaving
`lastIndex` and `oldInstances` unchanged; on success it publishes the diff
when non-empty and replaces the snapshot and index. -/
def updaterIter (fetch : Nat → Nat → Option (List String × Nat))
    (s : UpdaterState) : Option UpdaterState :=
  if s.quitClosed then
    some { s with iter := s.iter + 1 }
  else
    match fetch s.iter s.lastIndex with
    | none => some { s with iter := s.iter + 1 }
    | some (newInstances, newIndex) =>
      let updates := makeUpdates s.oldInstances newInstances
      some { iter := s.iter + 1
             quitClosed := s.quitClosed
             lastIndex := newIndex
             oldInstances := newInstances
             sent := if updates.length > 0 then s.sent ++ [updates] else s.sent }

/-- `n` iterations of the `backgroundUpdater` loop; `none` means the loop
exited within the first `n` iterations. -/
def updaterRun (fetch : Nat → Nat → Option (List String × Nat)) :
    Nat → UpdaterState → Option UpdaterState
  | 0, s => some s
  | n + 1, s =>
    match updaterIter fetch s with
    | none => none
    | some s' => updaterRun fetch n s'

/-- **C2 (as found in the code).** Once the quit channel is closed, the
`backgroundUpdater` loop never exits: `break` inside `select` leaves only the
`select` statement, so every subsequent iteration takes the quit case and
loops again with the state unchanged.  The goroutine therefore spins forever
after `Close` instead of terminating — the claimed termination is refuted. -/
theorem backgroundUpdater_never_exits
    (fetch : Nat → Nat → Option (List String × Nat)) (s : UpdaterState)
    (n : Nat) (h : s.quitClosed = true) :
    updaterRun fetch n s = some { s with iter := s.iter + n } := by
  induction n generalizing s with
  | zero => simp [updaterRun]
  | succ n ih =>
    have hstep : updaterIter fetch s = some { s with iter := s.iter + 1 } := by
      simp [updaterIter, h]
    have := ih { s with iter := s.iter + 1 } h
    simp only [updaterRun, hstep, this]
    have harith : s.iter + 1 + n = s.iter + (n + 1) := by omega
    simp [harith]

/-- Witness for `backgroundUpdater_never_exits`: four iterations after the
quit channel is closed, the loop is still running. -/
theorem backgroundUpdater_never_exits_witness :
    ({ iter := 0, quitClosed := true, lastIndex := 5, oldInstances := ["h:1"],
       sent := [] } : UpdaterState).quitClosed = true ∧
    updaterRun (fun _ _ => none) 4
      { iter := 0, quitClosed := true, lastIndex := 5, oldInstances := ["h:1"],
        sent := [] } =
      some { iter := 4, quitClosed := true, lastIndex := 5,
             oldInstances := ["h:1"], sent := [] } :=
  ⟨rfl, backgroundUpdater_never_exits (fun _ _ => none)
    { iter := 0, quitClosed := true, lastIndex := 5, oldInstances := ["h:1"],
      sent := [] } 4 rfl⟩

/-- **C3.** If the fetch fails on `N` consecutive iterations, the poller
emits no batch and its state is unchanged: the `lastIndex` used for the
`(N+1)`-th attempt equals the one used for the first, and `oldInstances` and
the log of published batches are untouched. -/
theorem failures_leave_state_unchanged
    (fetch : Nat → Nat → Option (List String × Nat)) (s : UpdaterState)
    (N : Nat) (hq : s.quitClosed = false)
    (hf : ∀ k : Nat, k < N → fetch (s.iter + k) s.lastIndex = none) :
    updaterRun fetch N s = some { s with iter := s.iter + N } := by
  induction N generalizing s with
  | zero => simp [updaterRun]
  | succ n ih =>
    have h0 : fetch s.iter s.lastIndex = none := by
      have := hf 0 (Nat.succ_pos n)
      simpa using this
    have hstep : updaterIter fetch s = some { s with iter := s.iter + 1 } := by
      simp [updaterIter, hq, h0]
    have hrest : updaterRun fetch n { s with iter := s.iter + 1 } =
        some { s with iter := s.iter + 1 + n } := by
      refine ih { s with iter := s.iter + 1 } hq ?_
      intro k hk
      have := hf (k + 1) (by omega)
      have harith : s.iter + (k + 1) = s.iter + 1 + k := by omega
      rw [harith] at this
      exact this
    simp only [updaterRun, hstep, hrest]
    have harith : s.iter + 1 + n = s.iter + (n + 1) := by omega
    simp [harith]

/-- Witness for `failures_leave_state_unchanged`: three consecutive fetch
failures leave index, snapshot and published batches unchanged. -/
theorem failures_leave_state_unchanged_witness :
    ({ iter := 0, quitClosed := false, lastIndex := 9,
       oldInstances := ["h:1"], sent := [[]] } : UpdaterState).quitClosed = false ∧
    (∀ k : Nat, k < 3 → (fun (_ _ : Nat) => (none : Option (List String × Nat))) (0 + k) 9 = none) ∧
    updaterRun (fun _ _ => none) 3
      { iter := 0, quitClosed := false, lastIndex := 9, oldInstances := ["h:1"],
        sent := [[]] } =
      some { iter := 3, quitClosed := false, lastIndex := 9,
             oldInstances := ["h:1"], sent := [[]] } :=
  ⟨rfl, fun _ _ => rfl, failures_leave_state_unchanged (fun _ _ => none)
    { iter := 0, quitClosed := false, lastIndex := 9, oldInstances := ["h:1"],
      sent := [[]] } 3 rfl (fun _ _ => rfl)⟩

/-- Global state of the producer-consumer pair around `chanUpdates`: the
batches the background poller still has to publish (in production order),
the channel buffer (capacity one), and the batches the consumer has received
through `Next` (in reception order). -/
structure PCState where
  pending : List Batch
  buffer : List Batch
  received : List Batch
deriving DecidableEq, Repr

/-- Interleaved execution of the poller and the consumer: the poller sends
its next batch when the capacity-one buffer has room (otherwise it blocks),
and the consumer receives the oldest buffered batch. -/
inductive PCStep : PCState → PCState → Prop
  | send (b : Batch) (tl buf rcv : List Batch) (h : buf.length < 1) :
      PCStep { pending := b :: tl, buffer := buf, received := rcv }
        { pending := tl, buffer := buf ++ [b], received := rcv }
  | recv (pend : List Batch) (b : Batch) (tl rcv : List Batch) :
      PCStep { pending := pend, buffer := b :: tl, received := rcv }
        { pending := pend, buffer := tl, received := rcv ++ [b] }

/-- Invariant of the producer-consumer system: the received, buffered and
pending batches always concatenate to the original production sequence, and
the buffer never exceeds the channel capacity of one. -/
theorem channel_fifo_inv (sends : List Batch) (s : PCState)
    (h : Relation.ReflTransGen PCStep
      { pending := sends, buffer := [], received := [] } s) :
    s.received ++ s.buffer ++ s.pending = sends ∧ s.buffer.length ≤ 1 := by
  induction h with
  | refl => simp
  | tail hsteps step ih =>
    obtain ⟨ih1, ih2⟩ := ih
    cases step with
    | send b tl buf rcv hlen =>
      have hbuf : buf = [] := List.length_eq_zero.mp (by omega)
      subst hbuf
      constructor
      · simpa using ih1
      · simp
    | recv pend b tl rcv =>
      refine ⟨by simpa using ih1, ?_⟩
      have h2' : (b :: tl).length ≤ 1 := ih2
      simp only [List.length_cons] at h2'
      show tl.length ≤ 1
      omega

/-- Helper: an element of a left factor of a concatenation occurs at the
same position in the whole list. -/
theorem getElem_of_append_eq {α : Type} {l₁ l₂ l : List α}
    (h : l₁ ++ l₂ = l) (i : Nat) (b : α) (hi : l₁[i]? = some b) :
    l[i]? = some b := by
  subst h
  have hlt : i < l₁.length := by
    by_contra hge
    rw [List.getElem?_eq_none (by omega)] at hi
    cases hi
  rw [List.getElem?_append, if_pos hlt]
  exact hi

/-- **C9.** Batches are delivered to the single consumer in exactly the
order the poller produced them, with no reordering, duplication, or
splitting: in every execution of the send/receive system starting from the
production sequence, the received list is an initial segment of the
production sequence (the `i`-th received batch is the `i`-th produced
batch), and the capacity-one buffer never holds more than one batch. -/
theorem channel_fifo (sends : List Batch) (s : PCState)
    (h : Relation.ReflTransGen PCStep
      { pending := sends, buffer := [], received := [] } s) :
    s.received ++ s.buffer ++ s.pending = sends ∧
    s.buffer.length ≤ 1 ∧
    ∀ (i : Nat) (b : Batch), s.received[i]? = some b → sends[i]? = some b := by
  obtain ⟨h1, h2⟩ := channel_fifo_inv sends s h
  have h1' : s.received ++ (s.buffer ++ s.pending) = sends := by
    rw [← List.append_assoc]
    exact h1
  exact ⟨h1, h2, fun i b hi => getElem_of_append_eq h1' i b hi⟩

/-- A concrete batch used by the witnesses. -/
def batchA : Batch := [{ op := Op.add, addr := "a" }]

/-- A second concrete batch used by the witnesses. -/
def batchB : Batch := [{ op := Op.add, addr := "b" }]

/-- Witness for `channel_fifo`: the poller publishes `batchA` then `batchB`;
the consumer receives them in that order. -/
theorem channel_fifo_witness :
    Relation.ReflTransGen PCStep
      { pending := [batchA, batchB], buffer := [], received := [] }
      { pending := [], buffer := [], received := [batchA, batchB] } ∧
    (({ pending := [], buffer := [], received := [batchA, batchB] } : PCState).received ++
        ({ pending := [], buffer := [], received := [batchA, batchB] } : PCState).buffer ++
        ({ pending := [], buffer := [], received := [batchA, batchB] } : PCState).pending =
        [batchA, batchB] ∧
      (({ pending := [], buffer := [], received := [batchA, batchB] } : PCState).buffer.length ≤ 1) ∧
      ∀ (i : Nat) (b : Batch),
        ({ pending := [], buffer := [], received := [batchA, batchB] } : PCState).received[i]? =
            some b →
          [batchA, batchB][i]? = some b) := by
  have h1 : PCStep { pending := [batchA, batchB], buffer := [], received := [] }
      { pending := [batchB], buffer := [batchA], received := [] } :=
    PCStep.send batchA [batchB] [] [] (by simp)
  have h2 : PCStep { pending := [batchB], buffer := [batchA], received := [] }
      { pending := [batchB], buffer := [], received := [batchA] } :=
    PCStep.recv [batchB] batchA [] []
  have h3 : PCStep { pending := [batchB], buffer := [], received := [batchA] }
      { pending := [], buffer := [batchB], received := [batchA] } :=
    PCStep.send batchB [] [] [batchA] (by simp)
  have h4 : PCStep { pending := [], buffer := [batchB], received := [batchA] }
      { pending := [], buffer := [], received := [batchA, batchB] } :=
    PCStep.recv [] batchB [] [batchA]
  have hreach : Relation.ReflTransGen PCStep
      { pending := [batchA, batchB], buffer := [], received := [] }
      { pending := [], buffer := [], received := [batchA, batchB] } :=
    Relation.ReflTransGen.tail
      (Relation.ReflTransGen.tail
        (Relation.ReflTransGen.tail (Relation.ReflTransGen.single h1) h2) h3) h4
  exact ⟨hreach, channel_fifo [batchA, batchB] _ hreach⟩
